import Mathlib

/-!
Verification of the markdown table-extraction and taxonomy-building pipeline
(the `xtable` scraper): `parseDeprecationStatus`, `parseXTable`,
`extractMetricFromRow` and `processMarkdownContent`.

The JavaScript source works on strings with `split`, `trim`, `includes`,
`startsWith`, `toLowerCase` and regex replacement.  We embed those string
primitives as executable functions on `List Char` (wrapped in `String`),
matching the JavaScript semantics on the ASCII inputs the pipeline consumes,
and then transcribe the pipeline functions themselves directly from the
source.  Mutable walker state becomes explicit state passing: the line
scanner `walkLines` threads a context record and the accumulated metric
list; the per-row `forEach` becomes a `foldl` over `processRow`.
-/

set_option maxHeartbeats 1000000
set_option maxRecDepth 100000

/-! ## JavaScript string primitives -/

/-- Whitespace characters trimmed by JavaScript `String.prototype.trim`
(restricted to the characters that can actually occur in this pipeline's
ASCII input, plus NBSP). -/
def jsWhitespaceChar (c : Char) : Bool :=
  c == ' ' || c == '\t' || c == '\n' || c == '\r' || c == '\x0b' ||
  c == '\x0c' || c == '\u00A0'

/-- Remove trailing whitespace: a character is dropped exactly when it is
whitespace and everything after it also trims away. -/
def trimRightL : List Char → List Char
  | [] => []
  | c :: cs =>
    if (trimRightL cs).isEmpty && jsWhitespaceChar c then [] else c :: trimRightL cs

/-- Trim on character lists: drop whitespace from both ends. -/
def trimL (l : List Char) : List Char :=
  trimRightL (l.dropWhile jsWhitespaceChar)

/-- JavaScript `s.trim()`. -/
def jsTrim (s : String) : String := ⟨trimL s.data⟩

/-- Auxiliary for splitting on a single character; `cur` is the reversed
current segment.  JavaScript `split` keeps empty segments. -/
def splitChAux (sep : Char) : List Char → List Char → List (List Char)
  | [], cur => [cur.reverse]
  | c :: cs, cur =>
    if c == sep then cur.reverse :: splitChAux sep cs []
    else splitChAux sep cs (c :: cur)

/-- JavaScript `s.split(sep)` for a one-character separator. -/
def jsSplitChar (sep : Char) (s : String) : List String :=
  (splitChAux sep s.data []).map (fun l => ⟨l⟩)

/-- Lowercase a string character-wise (JavaScript `toLowerCase` on ASCII). -/
def lowerStr (s : String) : String := ⟨s.data.map Char.toLower⟩

/-- Boolean list-prefix test. -/
def isPrefixL : List Char → List Char → Bool
  | [], _ => true
  | _ :: _, [] => false
  | a :: as, b :: bs => a == b && isPrefixL as bs

/-- Boolean substring test on character lists. -/
def containsSubL (pat : List Char) : List Char → Bool
  | [] => isPrefixL pat []
  | c :: rest => isPrefixL pat (c :: rest) || containsSubL pat rest

/-- JavaScript `s.includes(pat)`. -/
def containsSubStr (pat s : String) : Bool := containsSubL pat.data s.data

/-- JavaScript `s.startsWith(pre)`. -/
def jsStartsWith (pre s : String) : Bool := isPrefixL pre.data s.data

/-- Case-insensitive substring test: JavaScript `/pat/i.test(s)` for a
literal pattern. -/
def ciContainsStr (pat s : String) : Bool :=
  containsSubL (lowerStr pat).data (lowerStr s).data

/-- Remove the first case-insensitive occurrence of `patLower` (already
lowercased): JavaScript `s.replace(/pat/i, "")`. -/
def removeFirstCIL (patLower : List Char) : List Char → List Char
  | [] => []
  | c :: rest =>
    if isPrefixL patLower ((c :: rest).map Char.toLower) then
      (c :: rest).drop patLower.length
    else c :: removeFirstCIL patLower rest

/-- String wrapper for `removeFirstCIL`. -/
def removeFirstCIStr (pat s : String) : String :=
  ⟨removeFirstCIL (lowerStr pat).data s.data⟩

/-- Characters matched by the width-annotation character class `[\d%]`. -/
def isWidthChar (c : Char) : Bool := c.isDigit || c == '%'

/-- One-pass scanner removing every width mark — a left brace, a nonempty
run of digits or percent signs, a right brace — as the source's global regex
replacement does, scanning left to right.  `pend` holds (reversed) the
characters of the candidate mark currently open: a left brace followed by
width characters; it is empty when no candidate is open.  When a candidate
fails, its characters are emitted literally; since all of them after the
left brace are width characters, none can begin a new mark, so this agrees
with the regex scan restarting right after the failed left brace. -/
def swAux : List Char → List Char → List Char
  | [], pend => pend.reverse
  | c :: rest, pend =>
    if pend.isEmpty then
      if c == '\x7b' then swAux rest [c] else c :: swAux rest []
    else
      if isWidthChar c then swAux rest (c :: pend)
      else if c == '\x7d' && pend.length ≥ 2 then swAux rest []
      else if c == '\x7b' then pend.reverse ++ swAux rest [c]
      else pend.reverse ++ (c :: swAux rest [])

/-- Remove every `\x7b[\d%]+\x7d` width mark (JavaScript
`s.replace(/.../g, "")` on that pattern). -/
def stripWidthL (l : List Char) : List Char := swAux l []

/-- String wrapper for `stripWidthL`. -/
def stripWidthStr (s : String) : String := ⟨stripWidthL s.data⟩

/-- JavaScript `s.substring(n)` for ASCII strings. -/
def strDrop (n : Nat) (s : String) : String := ⟨s.data.drop n⟩

/-- JavaScript `s.replace(/^#/, "")`: remove one leading `#` if present. -/
def dropLeadingHash (s : String) : String :=
  match s.data with
  | '#' :: rest => ⟨rest⟩
  | _ => s

/-! ## Data model (from the source's interfaces) -/

/-- Lifecycle status of a metric, from the `deprecationStatus` union type. -/
inductive DeprecationStatus
  | active
  | deprecated
  | to_be_deprecated
deriving DecidableEq, Repr

/-- Output record of the pipeline (interface `Metric`). -/
structure Metric where
  name : String
  category : String
  subcategory : String
  type : String
  description : String
  commentary : String
  deprecationStatus : DeprecationStatus
deriving DecidableEq, Repr

/-- Intermediate result of `parseXTable` (interface `ParsedTable`). -/
structure ParsedTable where
  headers : List String
  rows : List (List String)
deriving DecidableEq, Repr

/-- Result record of `parseDeprecationStatus`. -/
structure DeprecationParse where
  cleanName : String
  status : DeprecationStatus
deriving DecidableEq, Repr

/-- Walker context: the four mutable strings of `processMarkdownContent`. -/
structure Ctx where
  category : String
  subcategory : String
  subSubcategory : String
  inlineHeader : String
deriving DecidableEq, Repr

/-! ## The pipeline, transcribed from the source -/

/-- Marker tested by the regex `/\x7b-To be deprecated\x7d/i`. -/
def toBeDeprecatedMarker : String := "\x7b-To be deprecated\x7d"

/-- Marker tested by the regex `/\x7b-deprecated\x7d/i`. -/
def deprecatedMarker : String := "\x7b-deprecated\x7d"

/-- `parseDeprecationStatus`: scan the raw field name for the two
case-insensitive inline markers, "to be deprecated" first; on a match remove
the marker substring and trim; otherwise return the name unchanged with
status active. -/
def parseDeprecationStatus (fieldName : String) : DeprecationParse :=
  if ciContainsStr toBeDeprecatedMarker fieldName then
    ⟨jsTrim (removeFirstCIStr toBeDeprecatedMarker fieldName),
      DeprecationStatus.to_be_deprecated⟩
  else if ciContainsStr deprecatedMarker fieldName then
    ⟨jsTrim (removeFirstCIStr deprecatedMarker fieldName),
      DeprecationStatus.deprecated⟩
  else
    ⟨fieldName, DeprecationStatus.active⟩

/-- Data-row cell extraction in `parseXTable`: remove one leading `#`,
split on `|`, drop empty (zero-length) segments, trim each cell. -/
def parseRowCells (line : String) : List String :=
  ((jsSplitChar '|' (dropLeadingHash line)).filter (fun cell => cell != "")).map jsTrim

/-- Header-line processing in `parseXTable`: split on `|`, drop
whitespace-only segments, strip width marks, trim each cell. -/
def parseHeaderCells (headerLine : String) : List String :=
  ((jsSplitChar '|' headerLine).filter (fun h => jsTrim h != "")).map
    (fun h => jsTrim (stripWidthStr h))

/-- `parseXTable`: split into non-blank lines; line 0 is the header line,
line 1 the discarded separator, the rest are data rows.  The JavaScript
indexes `lines[0]` unconditionally, which throws when there is no non-blank
line; that fallible access becomes `Option`, with `none` for the throwing
case (the caller guards against it). -/
def parseXTable (tableContent : String) : Option ParsedTable :=
  let lines := (jsSplitChar '\n' tableContent).filter (fun l => jsTrim l != "")
  match lines with
  | [] => none
  | headerLine :: _ =>
    let headers := parseHeaderCells headerLine
    let dataLines := lines.drop 2
    some ⟨headers, dataLines.map parseRowCells⟩

/-- Fuzzy field-column resolution:
`headers.findIndex(h ⇒ h.toLowerCase().includes("field") || h.toLowerCase() === "field")`. -/
def fieldIdx (headers : List String) : Option Nat :=
  headers.findIdx? (fun h => containsSubStr "field" (lowerStr h) || lowerStr h == "field")

/-- Fuzzy type-column resolution. -/
def typeIdx (headers : List String) : Option Nat :=
  headers.findIdx? (fun h => containsSubStr "type" (lowerStr h) || lowerStr h == "type")

/-- Fuzzy description-column resolution. -/
def descIdx (headers : List String) : Option Nat :=
  headers.findIdx? (fun h =>
    containsSubStr "description" (lowerStr h) || lowerStr h == "description")

/-- Fuzzy detail-column resolution. -/
def detailIdx (headers : List String) : Option Nat :=
  headers.findIdx? (fun h => containsSubStr "detail" (lowerStr h) || lowerStr h == "details")

/-- The JavaScript cell-access pattern
`idx !== -1 && row[idx] ? row[idx] : dflt`: an unresolved column, an index
beyond the row's length, and an empty cell all fall back to the default. -/
def cellOr (row : List String) (idx : Option Nat) (dflt : String) : String :=
  match idx with
  | none => dflt
  | some i => if row.getD i "" == "" then dflt else row.getD i ""

/-- `extractMetricFromRow`: resolve columns fuzzily, reject sub-heading and
malformed rows, parse the deprecation marker, and build the metric with
defaulted type/description/commentary. -/
def extractMetricFromRow (row headers : List String) (category subcategory : String) :
    Option Metric :=
  match fieldIdx headers with
  | none => none
  | some fi =>
    if row.length ≤ fi then none
    else
      let fieldName := row.getD fi ""
      if jsStartsWith "#" fieldName || fieldName == "" || row.length < 3 then none
      else
        let p := parseDeprecationStatus fieldName
        some
          { name := p.cleanName
            category := category
            subcategory := subcategory
            type := cellOr row (typeIdx headers) "string"
            description := cellOr row (descIdx headers) ""
            commentary := cellOr row (detailIdx headers) ""
            deprecationStatus := p.status }

/-- The inline-header test at the top of the row `forEach` in
`processMarkdownContent`: a resolved, non-empty field cell whose trimmed
value is non-empty and does not start with `#`, with an empty or absent
type cell, makes the row an inline header carrying that trimmed value.
(The source also computes a description value there, but never uses it.) -/
def inlineHeaderOf (headers row : List String) : Option String :=
  match fieldIdx headers with
  | none => none
  | some fi =>
    if row.getD fi "" == "" then none
    else
      let fieldName := jsTrim (row.getD fi "")
      let typeValue :=
        match typeIdx headers with
        | none => ""
        | some ti => if row.getD ti "" == "" then "" else jsTrim (row.getD ti "")
      if fieldName != "" && typeValue == "" && !(jsStartsWith "#" fieldName) then
        some fieldName
      else none

/-- The `effectiveSubcategory` computation: start from the subcategory,
append the sub-subcategory when non-empty, then fold in the inline header —
replacing outright when the value built so far is the literal "General". -/
def effectiveSubcategory (sub subSub ih : String) : String :=
  let base := if subSub != "" then sub ++ " - " ++ subSub else sub
  if ih != "" then (if base == "General" then ih else base ++ " - " ++ ih) else base

/-- One iteration of the row `forEach`: the state is the current inline
header and the metrics accumulated so far. -/
def processRow (headers : List String) (category subcategory subSubcategory : String)
    (st : String × List Metric) (row : List String) : String × List Metric :=
  match inlineHeaderOf headers row with
  | some fieldName => (fieldName, st.2)
  | none =>
    let eff := effectiveSubcategory subcategory subSubcategory st.1
    match extractMetricFromRow row headers category eff with
    | some m => (st.1, st.2 ++ [m])
    | none => (st.1, st.2)

/-- Processing of one collected table block: the guard
`if (tableContent.trim())`, then `parseXTable` and the row `forEach`.
Returns the updated context (only the inline header can change) and the
extended metric list. -/
def applyBlock (ctx : Ctx) (acc : List Metric) (tableContent : String) :
    Ctx × List Metric :=
  if jsTrim tableContent != "" then
    match parseXTable tableContent with
    | some pt =>
      let res := pt.rows.foldl
        (processRow pt.headers ctx.category ctx.subcategory ctx.subSubcategory)
        (ctx.inlineHeader, acc)
      ({ ctx with inlineHeader := res.1 }, res.2)
    | none => (ctx, acc)
  else (ctx, acc)

/-- The line scanner of `processMarkdownContent`.  The `mode` argument is
`none` outside a table block and `some tableContent` while the inner loop
of the source is accumulating block lines; this makes the scan structurally
recursive on the line list while following the source's index movements
exactly (the closing fence line is skipped, and a block left open at the end
of input is still processed). -/
def walkLines : List String → Option String → Ctx → List Metric → Ctx × List Metric
  | [], none, ctx, acc => (ctx, acc)
  | [], some tc, ctx, acc => applyBlock ctx acc tc
  | line :: rest, none, ctx, acc =>
    if jsStartsWith "# " line && !(jsStartsWith "## " line) then
      walkLines rest none
        ⟨jsTrim (strDrop 2 line), "General", "", ""⟩ acc
    else if jsStartsWith "## " line && !(jsStartsWith "### " line) then
      walkLines rest none
        { ctx with subcategory := jsTrim (strDrop 3 line), subSubcategory := "",
                   inlineHeader := "" } acc
    else if jsStartsWith "### " line then
      walkLines rest none
        { ctx with subSubcategory := jsTrim (strDrop 4 line), inlineHeader := "" } acc
    else if containsSubStr "```xtable" line then
      walkLines rest (some "") ctx acc
    else
      walkLines rest none ctx acc
  | line :: rest, some tc, ctx, acc =>
    if containsSubStr "```" line then
      let res := applyBlock ctx acc tc
      walkLines rest none res.1 res.2
    else
      walkLines rest (some (tc ++ line ++ "\n")) ctx acc

/-- `processMarkdownContent`: split the content into lines and run the
walker from the default context, returning the accumulated metrics. -/
def processMarkdownContent (content : String) : List Metric :=
  (walkLines (jsSplitChar '\n' content) none ⟨"General", "General", "", ""⟩ []).2

/-! ## Basic lemmas about the string primitives -/

theorem isPrefixL_eq_isPrefixOf (p l : List Char) : isPrefixL p l = p.isPrefixOf l := by
  induction p generalizing l with
  | nil => cases l <;> rfl
  | cons a as ih =>
    cases l with
    | nil => rfl
    | cons b bs => simp [isPrefixL, List.isPrefixOf, ih]

theorem isPrefixL_iff (p l : List Char) : isPrefixL p l = true ↔ ∃ t, l = p ++ t := by
  rw [isPrefixL_eq_isPrefixOf, List.isPrefixOf_iff_prefix]
  constructor
  · rintro ⟨t, rfl⟩; exact ⟨t, rfl⟩
  · rintro ⟨t, rfl⟩; exact ⟨t, rfl⟩

theorem isPrefixL_append (p t : List Char) : isPrefixL p (p ++ t) = true :=
  (isPrefixL_iff p (p ++ t)).mpr ⟨t, rfl⟩

theorem containsSubL_self_append (pat b : List Char) :
    containsSubL pat (pat ++ b) = true := by
  cases h : pat ++ b with
  | nil =>
    have hp : pat = [] := by cases pat <;> simp_all
    subst hp; simp [containsSubL, isPrefixL]
  | cons c rest =>
    rw [containsSubL, ← h, isPrefixL_append]
    rfl

theorem containsSubL_append (pat a b : List Char) :
    containsSubL pat (a ++ (pat ++ b)) = true := by
  induction a with
  | nil => simpa using containsSubL_self_append pat b
  | cons x xs ih => rw [List.cons_append, containsSubL, ih, Bool.or_true]

theorem startsWith_two_hash (l : String) (h : jsStartsWith "## " l = true) :
    jsStartsWith "# " l = false := by
  obtain ⟨t, ht⟩ := (isPrefixL_iff _ _).mp h
  show isPrefixL "# ".data l.data = false
  rw [ht]
  rfl

theorem startsWith_three_hash_not_one (l : String) (h : jsStartsWith "### " l = true) :
    jsStartsWith "# " l = false := by
  obtain ⟨t, ht⟩ := (isPrefixL_iff _ _).mp h
  show isPrefixL "# ".data l.data = false
  rw [ht]
  rfl

theorem startsWith_three_hash_not_two (l : String) (h : jsStartsWith "### " l = true) :
    jsStartsWith "## " l = false := by
  obtain ⟨t, ht⟩ := (isPrefixL_iff _ _).mp h
  show isPrefixL "## ".data l.data = false
  rw [ht]
  rfl

theorem startsWith_one_hash_not_two (l : String) (h : jsStartsWith "# " l = true) :
    jsStartsWith "## " l = false := by
  obtain ⟨t, ht⟩ := (isPrefixL_iff _ _).mp h
  show isPrefixL "## ".data l.data = false
  rw [ht]
  rfl

theorem startsWith_two_hash_not_three (l : String) (h : jsStartsWith "## " l = true) :
    jsStartsWith "### " l = false := by
  obtain ⟨t, ht⟩ := (isPrefixL_iff _ _).mp h
  show isPrefixL "### ".data l.data = false
  rw [ht]
  rfl

/-! ## Claim theorems -/

/-- Claim C4 (confirmed): `parseDeprecationStatus` checks the
case-insensitive marker `\x7b-To be deprecated\x7d` first and
`\x7b-deprecated\x7d` second, matching as a substring anywhere in the raw
field name; on a match it removes the marker substring, trims the result,
and sets status `to_be_deprecated` or `deprecated` respectively; if neither
matches it returns status `active` with the name unchanged (hence still
trimmed whenever the input was trimmed, as the pipeline's cells are).  The
three concrete evaluations of the claim hold. -/
theorem claim4_thm :
    parseDeprecationStatus "Spend \x7b-deprecated\x7d" =
      ⟨"Spend", DeprecationStatus.deprecated⟩ ∧
    parseDeprecationStatus "Reach \x7b-To be deprecated\x7d" =
      ⟨"Reach", DeprecationStatus.to_be_deprecated⟩ ∧
    parseDeprecationStatus "Impressions" =
      ⟨"Impressions", DeprecationStatus.active⟩ ∧
    (∀ s, ciContainsStr toBeDeprecatedMarker s = true →
      parseDeprecationStatus s =
        ⟨jsTrim (removeFirstCIStr toBeDeprecatedMarker s),
          DeprecationStatus.to_be_deprecated⟩) ∧
    (∀ s, ciContainsStr toBeDeprecatedMarker s = false →
      ciContainsStr deprecatedMarker s = true →
      parseDeprecationStatus s =
        ⟨jsTrim (removeFirstCIStr deprecatedMarker s), DeprecationStatus.deprecated⟩) ∧
    (∀ s, ciContainsStr toBeDeprecatedMarker s = false →
      ciContainsStr deprecatedMarker s = false →
      parseDeprecationStatus s = ⟨s, DeprecationStatus.active⟩) ∧
    (∀ s pre post,
      (lowerStr s).data = pre ++ ((lowerStr toBeDeprecatedMarker).data ++ post) →
      (parseDeprecationStatus s).status = DeprecationStatus.to_be_deprecated) := by
  refine ⟨by decide, by decide, by decide, ?_, ?_, ?_, ?_⟩
  · intro s h1; simp [parseDeprecationStatus, h1]
  · intro s h1 h2; simp [parseDeprecationStatus, h1, h2]
  · intro s h1 h2; simp [parseDeprecationStatus, h1, h2]
  · intro s pre post h
    have h1 : ciContainsStr toBeDeprecatedMarker s = true := by
      unfold ciContainsStr
      rw [h]
      exact containsSubL_append _ _ _
    simp [parseDeprecationStatus, h1]

/-- Witness for C4: the to-be-deprecated branch fires on an upper-case
marker occurrence in the middle of the name. -/
theorem claim4_witness :
    parseDeprecationStatus "Reach \x7b-TO BE DEPRECATED\x7d now" =
      ⟨jsTrim (removeFirstCIStr toBeDeprecatedMarker "Reach \x7b-TO BE DEPRECATED\x7d now"),
        DeprecationStatus.to_be_deprecated⟩ :=
  claim4_thm.2.2.2.1 "Reach \x7b-TO BE DEPRECATED\x7d now" (by decide)

/-- Claim C9 (confirmed): for every block text with at least one non-blank
line, `parseXTable` returns headers equal to the first non-blank line split
on `|` with whitespace-only segments discarded, width marks removed and each
cell trimmed; the second non-blank line is discarded without inspection (the
result depends only on the first line and the lines from the third on); and
each remaining non-blank line, after removal of a single leading `#`, split
on `|` with empty segments discarded and each cell trimmed, becomes one row,
in source order. -/
theorem claim9_thm (tc : String) (l0 : String) (ls : List String)
    (h : (jsSplitChar '\n' tc).filter (fun l => jsTrim l != "") = l0 :: ls) :
    parseXTable tc =
      some ⟨((jsSplitChar '|' l0).filter (fun c => jsTrim c != "")).map
              (fun c => jsTrim (stripWidthStr c)),
            (ls.drop 1).map (fun line =>
              ((jsSplitChar '|' (dropLeadingHash line)).filter
                (fun cell => cell != "")).map jsTrim)⟩ := by
  unfold parseXTable
  rw [h]
  rfl

/-- Witness for C9 at a concrete three-line block. -/
theorem claim9_witness :
    parseXTable "Field\x7b10%\x7d | Type\n---\n#x | y | z" =
      some ⟨["Field", "Type"], [["x", "y", "z"]]⟩ := by
  have h := claim9_thm "Field\x7b10%\x7d | Type\n---\n#x | y | z"
    "Field\x7b10%\x7d | Type" ["---", "#x | y | z"] (by decide)
  rw [h]
  decide

/-- Claim C10 (confirmed): in `parseXTable`'s data-row handling only
zero-length segments produced by the split on `|` are discarded, while a
whitespace-only segment is kept and trimmed to the empty string, so it still
occupies its column index: `a | | b` keeps three cells aligned with the
headers, `a || b` collapses to two. -/
theorem claim10_thm :
    parseRowCells "a | | b" = ["a", "", "b"] ∧
    parseRowCells "a || b" = ["a", "b"] ∧
    parseXTable "H1 | H2 | H3\n---\na | | b" =
      some ⟨["H1", "H2", "H3"], [["a", "", "b"]]⟩ ∧
    parseXTable "H1 | H2 | H3\n---\na || b" =
      some ⟨["H1", "H2", "H3"], [["a", "b"]]⟩ ∧
    (∀ s : String, s ≠ "" → jsTrim s = "" →
      ((["a", s, "b"].filter (fun cell => cell != "")).map jsTrim = ["a", "", "b"] ∧
        (["a", "", "b"].filter (fun cell => cell != "")).map jsTrim = ["a", "b"])) := by
  refine ⟨by decide, by decide, by decide, by decide, ?_⟩
  intro s hne htrim
  have hb : (s != "") = true := bne_iff_ne.mpr hne
  constructor
  · simp only [List.filter, hb]
    simp [htrim]
    decide
  · decide

/-- Witness for C10 at the whitespace-only segment consisting of one space. -/
theorem claim10_witness :
    ((["a", " ", "b"].filter (fun cell => cell != "")).map jsTrim = ["a", "", "b"] ∧
      (["a", "", "b"].filter (fun cell => cell != "")).map jsTrim = ["a", "b"]) :=
  claim10_thm.2.2.2.2 " " (by decide) (by decide)

theorem extract_some_subcategory (row headers : List String) (cat sub : String)
    (m : Metric) (h : extractMetricFromRow row headers cat sub = some m) :
    m.subcategory = sub := by
  cases hf : fieldIdx headers with
  | none =>
    simp only [extractMetricFromRow, hf] at h
    exact Option.noConfusion h
  | some fi =>
    simp only [extractMetricFromRow, hf] at h
    by_cases h1 : row.length ≤ fi
    · rw [if_pos h1] at h; exact absurd h (by simp)
    · rw [if_neg h1] at h
      by_cases h2 : (jsStartsWith "#" (row.getD fi "") || row.getD fi "" == "" ||
          decide (row.length < 3)) = true
      · rw [if_pos h2] at h; exact absurd h (by simp)
      · rw [if_neg h2] at h
        cases h
        rfl

theorem processRow_emit (headers row : List String) (cat sub ss ih : String)
    (acc : List Metric) (m : Metric)
    (h : processRow headers cat sub ss (ih, acc) row = (ih, acc ++ [m])) :
    extractMetricFromRow row headers cat (effectiveSubcategory sub ss ih) = some m := by
  unfold processRow at h
  cases hin : inlineHeaderOf headers row with
  | some f =>
    rw [hin] at h
    have h2 := congrArg Prod.snd h
    simp at h2
  | none =>
    rw [hin] at h
    cases hex : extractMetricFromRow row headers cat (effectiveSubcategory sub ss ih) with
    | none =>
      simp only [hex] at h
      have h2 := congrArg Prod.snd h
      simp at h2
    | some m' =>
      simp only [hex] at h
      have h2 := congrArg Prod.snd h
      simp at h2
      rw [h2]

/-- Claim C6 (confirmed): a `"# "` line sets the category and resets
subcategory to "General", sub-subcategory and inline header to ""; a `"## "`
line sets the subcategory and resets only sub-subcategory and inline header
(the category field is carried over unchanged); a `"### "` line sets the
sub-subcategory and resets only the inline header (category and subcategory
carried over); consequently a metric emitted right after a fresh
`"# Category"` heading with no intervening `"##"` line has subcategory
exactly "General". -/
theorem claim6_thm :
    (∀ (line : String) rest ctx acc, jsStartsWith "# " line = true →
      jsStartsWith "## " line = false →
      walkLines (line :: rest) none ctx acc =
        walkLines rest none ⟨jsTrim (strDrop 2 line), "General", "", ""⟩ acc) ∧
    (∀ (line : String) rest ctx acc, jsStartsWith "## " line = true →
      jsStartsWith "### " line = false →
      walkLines (line :: rest) none ctx acc =
        walkLines rest none ⟨ctx.category, jsTrim (strDrop 3 line), "", ""⟩ acc) ∧
    (∀ (line : String) rest ctx acc, jsStartsWith "### " line = true →
      walkLines (line :: rest) none ctx acc =
        walkLines rest none ⟨ctx.category, ctx.subcategory, jsTrim (strDrop 4 line), ""⟩ acc) ∧
    processMarkdownContent
        "# Cat\n```xtable\nField | Type | Description\n---\na | t | d\n```" =
      [⟨"a", "Cat", "General", "t", "d", "", DeprecationStatus.active⟩] := by
  refine ⟨?_, ?_, ?_, by decide⟩
  · intro line rest ctx acc h1 h2
    simp [walkLines, h1, h2]
  · intro line rest ctx acc h1 h2
    simp [walkLines, startsWith_two_hash line h1, h1, h2]
  · intro line rest ctx acc h1
    simp [walkLines, startsWith_three_hash_not_one line h1,
      startsWith_three_hash_not_two line h1, h1]

/-- Witness for C6: a concrete `"## "` line resets the sub-subcategory and
inline header while keeping the category. -/
theorem claim6_witness :
    walkLines ["## Sub"] none ⟨"Cat", "Old", "OldSS", "OldIH"⟩ [] =
      walkLines [] none ⟨"Cat", jsTrim (strDrop 3 "## Sub"), "", ""⟩ [] :=
  claim6_thm.2.1 "## Sub" [] ⟨"Cat", "Old", "OldSS", "OldIH"⟩ [] (by decide) (by decide)

/-- Claim C7 (confirmed): for every metric-producing row the subcategory
passed to `extractMetricFromRow` is `effectiveSubcategory`, which equals the
current subcategory when sub-subcategory and inline header are both empty,
equals `sub ++ " - " ++ subSub` when only the sub-subcategory is non-empty,
and when the inline header is non-empty equals the inline header alone if
the value built so far is the literal "General" and otherwise that value
with `" - " ++ inlineHeader` appended; the emitted metric carries exactly
that subcategory. -/
theorem claim7_thm :
    (∀ sub ss ih : String, ss = "" → ih = "" → effectiveSubcategory sub ss ih = sub) ∧
    (∀ sub ss ih : String, ss ≠ "" → ih = "" →
      effectiveSubcategory sub ss ih = sub ++ " - " ++ ss) ∧
    (∀ sub ss ih : String, ih ≠ "" →
      effectiveSubcategory sub ss ih =
        if (if ss = "" then sub else sub ++ " - " ++ ss) = "General" then ih
        else (if ss = "" then sub else sub ++ " - " ++ ss) ++ " - " ++ ih) ∧
    (∀ headers row cat sub ss ih acc, inlineHeaderOf headers row = none →
      processRow headers cat sub ss (ih, acc) row =
        (ih, match extractMetricFromRow row headers cat (effectiveSubcategory sub ss ih) with
             | some m => acc ++ [m]
             | none => acc)) ∧
    (∀ headers row cat sub ss ih acc m,
      processRow headers cat sub ss (ih, acc) row = (ih, acc ++ [m]) →
      m.subcategory = effectiveSubcategory sub ss ih) := by
  refine ⟨?_, ?_, ?_, ?_, ?_⟩
  · intro sub ss ih h1 h2
    subst h1; subst h2
    simp [effectiveSubcategory]
  · intro sub ss ih h1 h2
    subst h2
    simp [effectiveSubcategory, bne_iff_ne.mpr h1]
  · intro sub ss ih h1
    by_cases hss : ss = ""
    · subst hss
      simp [effectiveSubcategory, bne_iff_ne.mpr h1]
    · simp [effectiveSubcategory, bne_iff_ne.mpr h1, bne_iff_ne.mpr hss, hss]
  · intro headers row cat sub ss ih acc h
    simp only [processRow, h]
    cases hex : extractMetricFromRow row headers cat (effectiveSubcategory sub ss ih) <;>
      simp [hex]
  · intro headers row cat sub ss ih acc m h
    exact extract_some_subcategory _ _ _ _ _ (processRow_emit _ _ _ _ _ _ _ _ h)

/-- Witness for C7: a concrete metric-producing row under a non-empty inline
header built on the default "General" subcategory. -/
theorem claim7_witness :
    processRow ["Field", "Type", "Description"] "C" "General" "" ("IH", []) ["a", "t", "d"] =
      ("IH", match extractMetricFromRow ["a", "t", "d"] ["Field", "Type", "Description"] "C"
                (effectiveSubcategory "General" "" "IH") with
             | some m => [] ++ [m]
             | none => []) :=
  claim7_thm.2.2.2.1 ["Field", "Type", "Description"] ["a", "t", "d"] "C" "General" "" "IH"
    [] (by decide)

/-- Claim C3 (corrected): the claim states that `extractMetricFromRow`
rejects when the field cell after trimming starts with `#`; the code tests
the raw cell without trimming, so a cell `" #x"` whose trimmed value starts
with `#` still yields a metric. -/
theorem claim3_counterexample :
    extractMetricFromRow [" #x", "t", "d"] ["Field", "Type", "Description"] "c" "s" =
      some ⟨" #x", "c", "s", "t", "d", "", DeprecationStatus.active⟩ ∧
    jsStartsWith "#" (jsTrim " #x") = true := by decide

/-- Claim C3 as amended: `extractMetricFromRow` returns `none` exactly when
no header fuzzily matches "field", or the field-column index is out of range
for the row, or the raw field cell starts with `#` (no trimming is applied;
cells reaching this function from `parseXTable` are already trimmed), or the
field cell is empty, or the row has fewer than 3 total cells; for every
other input it returns a metric.  In particular a row whose field cell is
"#Notes" always yields `none`. -/
theorem claim3_amended :
    (∀ (row headers : List String) (cat sub : String),
      extractMetricFromRow row headers cat sub = none ↔
        fieldIdx headers = none ∨
          ∃ fi, fieldIdx headers = some fi ∧
            (row.length ≤ fi ∨ jsStartsWith "#" (row.getD fi "") = true ∨
              row.getD fi "" = "" ∨ row.length < 3)) ∧
    (∀ (row headers : List String) (cat sub : String) (fi : Nat),
      fieldIdx headers = some fi → row.getD fi "" = "#Notes" →
      extractMetricFromRow row headers cat sub = none) := by
  constructor
  · intro row headers cat sub
    cases hf : fieldIdx headers with
    | none => simp [extractMetricFromRow, hf]
    | some fi =>
      simp only [extractMetricFromRow, hf]
      by_cases h1 : row.length ≤ fi
      · rw [if_pos h1]
        exact iff_of_true rfl (Or.inr ⟨fi, rfl, Or.inl h1⟩)
      · rw [if_neg h1]
        by_cases hg : (jsStartsWith "#" (row.getD fi "") || row.getD fi "" == "" ||
            decide (row.length < 3)) = true
        · rw [if_pos hg]
          simp only [Bool.or_eq_true, beq_iff_eq, decide_eq_true_eq] at hg
          refine iff_of_true rfl (Or.inr ⟨fi, rfl, ?_⟩)
          tauto
        · rw [if_neg hg]
          simp only [Bool.or_eq_true, beq_iff_eq, decide_eq_true_eq, not_or] at hg
          apply iff_of_false
          · simp
          · rintro (hnone | ⟨fi', hfi', hdis⟩)
            · exact Option.noConfusion hnone
            · cases Option.some.inj hfi'
              rcases hdis with h | h | h | h
              · exact h1 h
              · exact hg.1.1 h
              · exact hg.1.2 h
              · exact hg.2 h
  · intro row headers cat sub fi hf hcell
    simp only [extractMetricFromRow, hf]
    by_cases h1 : row.length ≤ fi
    · rw [if_pos h1]
    · rw [if_neg h1]
      have hs : jsStartsWith "#" (row.getD fi "") = true := by rw [hcell]; decide
      have hg : (jsStartsWith "#" (row.getD fi "") || row.getD fi "" == "" ||
          decide (row.length < 3)) = true := by rw [hs]; rfl
      rw [if_pos hg]

/-- Witness for C3 as amended: the "#Notes" rejection at a concrete row. -/
theorem claim3_witness :
    extractMetricFromRow ["#Notes", "t", "d"] ["Field"] "c" "s" = none :=
  claim3_amended.2 ["#Notes", "t", "d"] ["Field"] "c" "s" 0 (by decide) (by decide)

theorem trimRightL_idem (l : List Char) : trimRightL (trimRightL l) = trimRightL l := by
  induction l with
  | nil => rfl
  | cons c cs ih =>
    by_cases h : ((trimRightL cs).isEmpty && jsWhitespaceChar c) = true
    · simp only [trimRightL, if_pos h]
    · simp only [trimRightL, if_neg h]
      simp only [trimRightL, ih, if_neg h]

theorem dropWhile_head_not (p : Char → Bool) (l : List Char) (c : Char)
    (h : (l.dropWhile p).head? = some c) : p c = false := by
  induction l with
  | nil => simp [List.dropWhile] at h
  | cons x xs ih =>
    rw [List.dropWhile_cons] at h
    by_cases hx : p x = true
    · rw [if_pos hx] at h; exact ih h
    · rw [if_neg hx] at h
      simp only [List.head?_cons, Option.some.injEq] at h
      subst h
      simpa using hx

theorem dropWhile_eq_self_of_head (p : Char → Bool) (l : List Char)
    (h : ∀ c, l.head? = some c → p c = false) : l.dropWhile p = l := by
  cases l with
  | nil => rfl
  | cons x xs =>
    have hx := h x rfl
    simp [List.dropWhile_cons, hx]

theorem trimRightL_head? (l : List Char) (c : Char)
    (h : (trimRightL l).head? = some c) : l.head? = some c := by
  cases l with
  | nil => simp [trimRightL] at h
  | cons x xs =>
    simp only [trimRightL] at h
    by_cases hx : ((trimRightL xs).isEmpty && jsWhitespaceChar x) = true
    · rw [if_pos hx] at h; simp at h
    · rw [if_neg hx] at h
      simp only [List.head?_cons, Option.some.injEq] at h ⊢
      exact h

theorem trimL_idem (l : List Char) : trimL (trimL l) = trimL l := by
  unfold trimL
  have hd : (trimRightL (l.dropWhile jsWhitespaceChar)).dropWhile jsWhitespaceChar =
      trimRightL (l.dropWhile jsWhitespaceChar) := by
    apply dropWhile_eq_self_of_head
    intro c hc
    exact dropWhile_head_not jsWhitespaceChar l c (trimRightL_head? _ c hc)
  rw [hd, trimRightL_idem]

theorem jsTrim_idem (s : String) : jsTrim (jsTrim s) = jsTrim s := by
  show String.mk (trimL (trimL s.data)) = String.mk (trimL s.data)
  rw [trimL_idem]

theorem trimRightL_eq_nil_iff (l : List Char) :
    trimRightL l = [] ↔ ∀ c ∈ l, jsWhitespaceChar c = true := by
  induction l with
  | nil => simp [trimRightL]
  | cons x xs ih =>
    simp only [trimRightL]
    by_cases hx : ((trimRightL xs).isEmpty && jsWhitespaceChar x) = true
    · rw [if_pos hx]
      simp only [Bool.and_eq_true, List.isEmpty_iff] at hx
      constructor
      · intro _ c hc
        rcases List.mem_cons.mp hc with rfl | hc2
        · exact hx.2
        · exact (ih.mp hx.1) c hc2
      · intro _; rfl
    · rw [if_neg hx]
      constructor
      · intro h; exact absurd h (List.cons_ne_nil _ _)
      · intro hall
        exfalso
        apply hx
        simp only [Bool.and_eq_true, List.isEmpty_iff]
        exact ⟨ih.mpr (fun c hc => hall c (List.mem_cons_of_mem _ hc)),
          hall x (List.mem_cons_self _ _)⟩

theorem trimL_eq_nil_iff (l : List Char) :
    trimL l = [] ↔ ∀ c ∈ l, jsWhitespaceChar c = true := by
  unfold trimL
  rw [trimRightL_eq_nil_iff]
  constructor
  · intro h c hc
    have hsplit := List.takeWhile_append_dropWhile (p := jsWhitespaceChar) (l := l)
    rw [← hsplit] at hc
    rcases List.mem_append.mp hc with h1 | h2
    · exact List.mem_takeWhile_imp h1
    · exact h c h2
  · intro h c hc
    exact h c ((List.dropWhile_sublist _).subset hc)

theorem jsTrim_eq_empty_iff (s : String) :
    jsTrim s = "" ↔ ∀ c ∈ s.data, jsWhitespaceChar c = true := by
  constructor
  · intro h
    have h2 : trimL s.data = [] := congrArg String.data h
    exact (trimL_eq_nil_iff _).mp h2
  · intro h
    show String.mk (trimL s.data) = ""
    rw [(trimL_eq_nil_iff _).mpr h]

theorem splitChAux_cur_mem (sep : Char) :
    ∀ (l cur : List Char) (c : Char), c ∈ cur →
      ∃ seg ∈ splitChAux sep l cur, c ∈ seg := by
  intro l
  induction l with
  | nil =>
    intro cur c hc
    exact ⟨cur.reverse, List.mem_singleton_self _, List.mem_reverse.mpr hc⟩
  | cons x xs ih =>
    intro cur c hc
    simp only [splitChAux]
    by_cases hx : (x == sep) = true
    · rw [if_pos hx]
      exact ⟨cur.reverse, List.mem_cons_self _ _, List.mem_reverse.mpr hc⟩
    · rw [if_neg hx]
      exact ih (x :: cur) c (List.mem_cons_of_mem _ hc)

theorem splitChAux_mem (sep : Char) :
    ∀ (l cur : List Char) (c : Char), c ∈ l →
      c = sep ∨ ∃ seg ∈ splitChAux sep l cur, c ∈ seg := by
  intro l
  induction l with
  | nil => intro cur c hc; simp at hc
  | cons x xs ih =>
    intro cur c hc
    simp only [splitChAux]
    by_cases hx : (x == sep) = true
    · rw [if_pos hx]
      rcases List.mem_cons.mp hc with rfl | hc2
      · exact Or.inl (beq_iff_eq.mp hx)
      · rcases ih [] c hc2 with h | ⟨seg, hs, hcs⟩
        · exact Or.inl h
        · exact Or.inr ⟨seg, List.mem_cons_of_mem _ hs, hcs⟩
    · rw [if_neg hx]
      rcases List.mem_cons.mp hc with rfl | hc2
      · exact Or.inr (splitChAux_cur_mem sep xs (c :: cur) c (List.mem_cons_self _ _))
      · exact ih (x :: cur) c hc2

theorem parseXTable_total (tc : String) (h : jsTrim tc ≠ "") :
    ∃ pt, parseXTable tc = some pt := by
  unfold parseXTable
  cases hl : (jsSplitChar '\n' tc).filter (fun l => jsTrim l != "") with
  | cons l0 ls => exact ⟨_, rfl⟩
  | nil =>
    exfalso
    apply h
    rw [jsTrim_eq_empty_iff]
    intro c hc
    rcases splitChAux_mem '\n' tc.data [] c hc with rfl | ⟨seg, hseg, hcs⟩
    · decide
    · have hmem : (⟨seg⟩ : String) ∈ jsSplitChar '\n' tc := List.mem_map_of_mem _ hseg
      have hblank : jsTrim (⟨seg⟩ : String) = "" := by
        by_contra hne
        have hb : (fun l => jsTrim l != "") (⟨seg⟩ : String) = true := bne_iff_ne.mpr hne
        have hmemf : (⟨seg⟩ : String) ∈
            (jsSplitChar '\n' tc).filter (fun l => jsTrim l != "") :=
          List.mem_filter.mpr ⟨hmem, hb⟩
        rw [hl] at hmemf
        simp at hmemf
      exact (jsTrim_eq_empty_iff _).mp hblank c hcs

theorem getD_oor : ∀ (l : List String) (i : Nat), l.length ≤ i → l.getD i "" = "" := by
  intro l
  induction l with
  | nil => intro i _; cases i <;> rfl
  | cons x xs ih =>
    intro i hi
    cases i with
    | zero => simp at hi
    | succ j => exact ih j (by simpa using hi)

theorem getD_mem : ∀ (l : List String) (i : Nat), i < l.length → l.getD i "" ∈ l := by
  intro l
  induction l with
  | nil => intro i hi; simp at hi
  | cons x xs ih =>
    intro i hi
    cases i with
    | zero => exact List.mem_cons_self _ _
    | succ j => exact List.mem_cons_of_mem _ (ih j (Nat.lt_of_succ_lt_succ hi))

theorem cellOr_oor (row : List String) (idx : Option Nat) (dflt : String)
    (h : idx = none ∨ ∃ i, idx = some i ∧ row.length ≤ i) :
    cellOr row idx dflt = dflt := by
  rcases h with rfl | ⟨i, rfl, hle⟩
  · rfl
  · have hg := getD_oor row i hle
    simp only [cellOr]
    rw [hg]
    simp

theorem extract_some_fields (row headers : List String) (cat sub : String) (m : Metric)
    (h : extractMetricFromRow row headers cat sub = some m) :
    m.type = cellOr row (typeIdx headers) "string" ∧
    m.description = cellOr row (descIdx headers) "" ∧
    m.commentary = cellOr row (detailIdx headers) "" := by
  cases hf : fieldIdx headers with
  | none =>
    simp only [extractMetricFromRow, hf] at h
    exact Option.noConfusion h
  | some fi =>
    simp only [extractMetricFromRow, hf] at h
    by_cases h1 : row.length ≤ fi
    · rw [if_pos h1] at h; exact absurd h (by simp)
    · rw [if_neg h1] at h
      by_cases h2 : (jsStartsWith "#" (row.getD fi "") || row.getD fi "" == "" ||
          decide (row.length < 3)) = true
      · rw [if_pos h2] at h; exact absurd h (by simp)
      · rw [if_neg h2] at h
        cases h
        exact ⟨rfl, rfl, rfl⟩

theorem extract_some_name (row headers : List String) (cat sub : String) (m : Metric)
    (hrow : ∀ cell ∈ row, jsTrim cell = cell)
    (h : extractMetricFromRow row headers cat sub = some m) :
    jsTrim m.name = m.name ∧
      (m.deprecationStatus = DeprecationStatus.active → m.name ≠ "") := by
  cases hf : fieldIdx headers with
  | none =>
    simp only [extractMetricFromRow, hf] at h
    exact Option.noConfusion h
  | some fi =>
    simp only [extractMetricFromRow, hf] at h
    by_cases h1 : row.length ≤ fi
    · rw [if_pos h1] at h; exact absurd h (by simp)
    · rw [if_neg h1] at h
      by_cases h2 : (jsStartsWith "#" (row.getD fi "") || row.getD fi "" == "" ||
          decide (row.length < 3)) = true
      · rw [if_pos h2] at h; exact absurd h (by simp)
      · rw [if_neg h2] at h
        simp only [Bool.or_eq_true, beq_iff_eq, decide_eq_true_eq, not_or] at h2
        have htr : jsTrim (row.getD fi "") = row.getD fi "" :=
          hrow _ (getD_mem row fi (Nat.lt_of_not_le h1))
        cases h
        constructor
        · show jsTrim (parseDeprecationStatus (row.getD fi "")).cleanName =
            (parseDeprecationStatus (row.getD fi "")).cleanName
          unfold parseDeprecationStatus
          by_cases hm1 : ciContainsStr toBeDeprecatedMarker (row.getD fi "") = true
          · rw [if_pos hm1]; exact jsTrim_idem _
          · rw [if_neg hm1]
            by_cases hm2 : ciContainsStr deprecatedMarker (row.getD fi "") = true
            · rw [if_pos hm2]; exact jsTrim_idem _
            · rw [if_neg hm2]; exact htr
        · intro hact
          show (parseDeprecationStatus (row.getD fi "")).cleanName ≠ ""
          unfold parseDeprecationStatus at hact ⊢
          by_cases hm1 : ciContainsStr toBeDeprecatedMarker (row.getD fi "") = true
          · rw [if_pos hm1] at hact; exact absurd hact (by simp)
          · rw [if_neg hm1] at hact ⊢
            by_cases hm2 : ciContainsStr deprecatedMarker (row.getD fi "") = true
            · rw [if_pos hm2] at hact; exact absurd hact (by simp)
            · rw [if_neg hm2]
              exact h2.1.2

theorem parseXTable_rows_trimmed (tc : String) (pt : ParsedTable)
    (h : parseXTable tc = some pt) :
    ∀ row ∈ pt.rows, ∀ cell ∈ row, jsTrim cell = cell := by
  unfold parseXTable at h
  cases hl : (jsSplitChar '\n' tc).filter (fun l => jsTrim l != "") with
  | nil => rw [hl] at h; exact Option.noConfusion h
  | cons l0 ls =>
    rw [hl] at h
    cases h
    intro row hrow cell hcell
    simp only at hrow
    rcases List.mem_map.mp hrow with ⟨line, _, rfl⟩
    simp only [parseRowCells] at hcell
    rcases List.mem_map.mp hcell with ⟨x, _, rfl⟩
    exact jsTrim_idem x

theorem inlineHeaderOf_some (headers row : List String) (fi : Nat)
    (hf : fieldIdx headers = some fi)
    (hrow : ∀ cell ∈ row, jsTrim cell = cell)
    (hne : row.getD fi "" ≠ "")
    (hhash : jsStartsWith "#" (row.getD fi "") = false)
    (htype : ∀ ti, typeIdx headers = some ti → row.getD ti "" = "") :
    inlineHeaderOf headers row = some (row.getD fi "") := by
  have hfin : fi < row.length := by
    by_contra hle
    exact hne (getD_oor row fi (Nat.le_of_not_lt hle))
  have htr : jsTrim (row.getD fi "") = row.getD fi "" := hrow _ (getD_mem row fi hfin)
  have hb : (row.getD fi "" != "") = true := bne_iff_ne.mpr hne
  simp only [inlineHeaderOf, hf]
  rw [if_neg (by simpa using hne)]
  rw [htr]
  cases ht : typeIdx headers with
  | none =>
    simp only [ht]
    rw [hb, hhash]
    rfl
  | some ti =>
    have h0 : row.getD ti "" = "" := htype ti ht
    simp only [ht, h0]
    rw [hb, hhash]
    rfl

/-- Claim C8 (confirmed): the pipeline is total by construction in this
embedding — the one fallible access, `lines[0]` inside `parseXTable`, is
shown unreachable under the caller's guard (conjunct 3: a block whose
content does not trim to the empty string always parses to `some`).  A
type/description/detail cell access beyond the row's length (or with no
resolved column) yields the defaults "string" / "" / ""; a block whose
collected content is empty or whitespace-only contributes no metrics and
leaves the context unchanged; an unresolvable field column only causes the
row to be skipped, leaving the fold state unchanged. -/
theorem claim8_thm :
    (∀ (row headers : List String) (cat sub : String) (m : Metric),
      extractMetricFromRow row headers cat sub = some m →
      ((typeIdx headers = none ∨ ∃ ti, typeIdx headers = some ti ∧ row.length ≤ ti) →
        m.type = "string") ∧
      ((descIdx headers = none ∨ ∃ di, descIdx headers = some di ∧ row.length ≤ di) →
        m.description = "") ∧
      ((detailIdx headers = none ∨ ∃ di, detailIdx headers = some di ∧ row.length ≤ di) →
        m.commentary = "")) ∧
    (∀ (ctx : Ctx) (acc : List Metric) (tc : String), jsTrim tc = "" →
      applyBlock ctx acc tc = (ctx, acc)) ∧
    (∀ tc : String, jsTrim tc ≠ "" → ∃ pt, parseXTable tc = some pt) ∧
    (∀ (headers row : List String) (cat sub ss : String) (st : String × List Metric),
      fieldIdx headers = none → processRow headers cat sub ss st row = st) ∧
    (∀ (row headers : List String) (cat sub : String),
      fieldIdx headers = none → extractMetricFromRow row headers cat sub = none) := by
  refine ⟨?_, ?_, parseXTable_total, ?_, ?_⟩
  · intro row headers cat sub m h
    obtain ⟨ht, hd, hc⟩ := extract_some_fields row headers cat sub m h
    exact ⟨fun hx => by rw [ht]; exact cellOr_oor _ _ _ hx,
           fun hx => by rw [hd]; exact cellOr_oor _ _ _ hx,
           fun hx => by rw [hc]; exact cellOr_oor _ _ _ hx⟩
  · intro ctx acc tc h
    unfold applyBlock
    rw [h]
    simp
  · intro headers row cat sub ss st h
    unfold processRow
    have h1 : inlineHeaderOf headers row = none := by simp [inlineHeaderOf, h]
    have h2 : extractMetricFromRow row headers cat
        (effectiveSubcategory sub ss st.1) = none := by simp [extractMetricFromRow, h]
    rw [h1]
    simp only [h2]
  · intro row headers cat sub h
    simp [extractMetricFromRow, h]

/-- Witness for C8: a non-blank block text always parses. -/
theorem claim8_witness : ∃ pt, parseXTable "x" = some pt :=
  claim8_thm.2.2.1 "x" (by decide)

/-- Claim C2 (confirmed): a table row whose resolved field cell is
non-empty and does not start with `#`, with an empty or absent type cell,
contributes zero metrics and sets the inline header to the field value
(conjunct 2; conjunct 1 shows every row the pipeline feeds in has trimmed
cells, which is what the hypotheses of conjunct 2 describe).  A metric
emitted while the inline header is non-empty carries it in its effective
subcategory (conjunct 3).  The header is threaded out of a block and into
the scan of the remaining lines — later blocks included (conjuncts 4, 5) —
is preserved by all other non-heading lines (conjunct 6), and is reset by
the next heading line of any level (conjunct 7); an inline-header row
overwrites it (conjunct 2 again). -/
theorem claim2_thm :
    (∀ (tc : String) (pt : ParsedTable), parseXTable tc = some pt →
      ∀ row ∈ pt.rows, ∀ cell ∈ row, jsTrim cell = cell) ∧
    (∀ (headers row : List String) (fi : Nat) (cat sub ss ih : String) (acc : List Metric),
      fieldIdx headers = some fi →
      (∀ cell ∈ row, jsTrim cell = cell) →
      row.getD fi "" ≠ "" →
      jsStartsWith "#" (row.getD fi "") = false →
      (∀ ti, typeIdx headers = some ti → row.getD ti "" = "") →
      processRow headers cat sub ss (ih, acc) row = (row.getD fi "", acc)) ∧
    (∀ (headers row : List String) (cat sub ss ih : String) (acc : List Metric) (m : Metric),
      processRow headers cat sub ss (ih, acc) row = (ih, acc ++ [m]) →
      ih ≠ "" →
      (m.subcategory = ih ∨
        m.subcategory = (if ss = "" then sub else sub ++ " - " ++ ss) ++ " - " ++ ih)) ∧
    (∀ (line : String) (rest : List String) (tc : String) (ctx : Ctx) (acc : List Metric),
      containsSubStr "```" line = true →
      walkLines (line :: rest) (some tc) ctx acc =
        walkLines rest none (applyBlock ctx acc tc).1 (applyBlock ctx acc tc).2) ∧
    (∀ (ctx : Ctx) (acc : List Metric) (tc : String) (pt : ParsedTable),
      jsTrim tc ≠ "" → parseXTable tc = some pt →
      (applyBlock ctx acc tc).1 =
        { ctx with inlineHeader :=
            (pt.rows.foldl
              (processRow pt.headers ctx.category ctx.subcategory ctx.subSubcategory)
              (ctx.inlineHeader, acc)).1 }) ∧
    (∀ (line : String) (rest : List String) (ctx : Ctx) (acc : List Metric),
      jsStartsWith "# " line = false → jsStartsWith "## " line = false →
      jsStartsWith "### " line = false → containsSubStr "```xtable" line = false →
      walkLines (line :: rest) none ctx acc = walkLines rest none ctx acc) ∧
    (∀ (line : String) (rest : List String) (ctx : Ctx) (acc : List Metric),
      (jsStartsWith "# " line = true ∨ jsStartsWith "## " line = true ∨
        jsStartsWith "### " line = true) →
      ∃ ctx' : Ctx, ctx'.inlineHeader = "" ∧
        walkLines (line :: rest) none ctx acc = walkLines rest none ctx' acc) := by
  refine ⟨parseXTable_rows_trimmed, ?_, ?_, ?_, ?_, ?_, ?_⟩
  · intro headers row fi cat sub ss ih acc hf hrow hne hhash htype
    simp [processRow, inlineHeaderOf_some headers row fi hf hrow hne hhash htype]
  · intro headers row cat sub ss ih acc m h hne
    have hsub := extract_some_subcategory _ _ _ _ _ (processRow_emit _ _ _ _ _ _ _ _ h)
    rw [hsub]
    simp only [effectiveSubcategory]
    by_cases hss : ss = ""
    · subst hss
      rw [if_pos (bne_iff_ne.mpr hne)]
      rw [if_neg (by decide : ¬ ((("" : String) != "") = true))]
      by_cases hg : (sub == "General") = true
      · rw [if_pos hg]; left; rfl
      · rw [if_neg hg]; right; simp
    · rw [if_pos (bne_iff_ne.mpr hne)]
      rw [if_pos (bne_iff_ne.mpr hss)]
      by_cases hg : (sub ++ " - " ++ ss == "General") = true
      · rw [if_pos hg]; left; rfl
      · rw [if_neg hg]; right; rw [if_neg hss]
  · intro line rest tc ctx acc h
    simp only [walkLines]
    rw [if_pos h]
  · intro ctx acc tc pt h hp
    unfold applyBlock
    rw [if_pos (bne_iff_ne.mpr h), hp]
  · intro line rest ctx acc h1 h2 h3 h4
    simp [walkLines, h1, h2, h3, h4]
  · intro line rest ctx acc h
    rcases h with h1 | h2 | h3
    · exact ⟨⟨jsTrim (strDrop 2 line), "General", "", ""⟩, rfl, by
        simp [walkLines, h1, startsWith_one_hash_not_two line h1]⟩
    · exact ⟨⟨ctx.category, jsTrim (strDrop 3 line), "", ""⟩, rfl, by
        simp [walkLines, startsWith_two_hash line h2, h2,
          startsWith_two_hash_not_three line h2]⟩
    · exact ⟨⟨ctx.category, ctx.subcategory, jsTrim (strDrop 4 line), ""⟩, rfl, by
        simp [walkLines, startsWith_three_hash_not_one line h3,
          startsWith_three_hash_not_two line h3, h3]⟩

/-- Witness for C2: the single-cell row "Legacy Fields" (as produced from
the source line "#Legacy Fields" after `parseXTable` strips the `#`) is an
inline-header row: it yields no metric and the state takes its field value. -/
theorem claim2_witness :
    processRow ["Field", "Type", "Description"] "C" "Video Metrics" "" ("", [])
        ["Legacy Fields"] = (["Legacy Fields"].getD 0 "", []) :=
  claim2_thm.2.1 ["Field", "Type", "Description"] ["Legacy Fields"] 0 "C" "Video Metrics"
    "" "" [] (by decide) (by decide) (by decide) (by decide)
    (fun ti hti => by
      have h1 : typeIdx ["Field", "Type", "Description"] = some 1 := by decide
      rw [h1] at hti
      cases Option.some.inj hti
      decide)

theorem processRow_name_ok (headers row : List String) (cat sub ss : String)
    (st : String × List Metric)
    (hrow : ∀ cell ∈ row, jsTrim cell = cell)
    (hacc : ∀ m ∈ st.2, jsTrim m.name = m.name ∧
      (m.deprecationStatus = DeprecationStatus.active → m.name ≠ "")) :
    ∀ m ∈ (processRow headers cat sub ss st row).2,
      jsTrim m.name = m.name ∧
        (m.deprecationStatus = DeprecationStatus.active → m.name ≠ "") := by
  intro m hm
  unfold processRow at hm
  cases hin : inlineHeaderOf headers row with
  | some f => rw [hin] at hm; exact hacc m hm
  | none =>
    rw [hin] at hm
    cases hex : extractMetricFromRow row headers cat (effectiveSubcategory sub ss st.1) with
    | none => simp only [hex] at hm; exact hacc m hm
    | some m' =>
      simp only [hex] at hm
      rcases List.mem_append.mp hm with h | h
      · exact hacc m h
      · rw [List.mem_singleton.mp h]
        exact extract_some_name _ _ _ _ _ hrow hex

theorem foldl_rows_name_ok (headers : List String) (cat sub ss : String)
    (rows : List (List String)) :
    ∀ (st : String × List Metric),
    (∀ row ∈ rows, ∀ cell ∈ row, jsTrim cell = cell) →
    (∀ m ∈ st.2, jsTrim m.name = m.name ∧
      (m.deprecationStatus = DeprecationStatus.active → m.name ≠ "")) →
    ∀ m ∈ (rows.foldl (processRow headers cat sub ss) st).2,
      jsTrim m.name = m.name ∧
        (m.deprecationStatus = DeprecationStatus.active → m.name ≠ "") := by
  induction rows with
  | nil => intro st _ hacc m hm; exact hacc m hm
  | cons r rs ih =>
    intro st hrows hacc m hm
    rw [List.foldl_cons] at hm
    exact ih _ (fun row hr => hrows row (List.mem_cons_of_mem _ hr))
      (processRow_name_ok _ _ _ _ _ _ (hrows r (List.mem_cons_self _ _)) hacc) m hm

theorem applyBlock_name_ok (ctx : Ctx) (acc : List Metric) (tc : String)
    (hacc : ∀ m ∈ acc, jsTrim m.name = m.name ∧
      (m.deprecationStatus = DeprecationStatus.active → m.name ≠ "")) :
    ∀ m ∈ (applyBlock ctx acc tc).2,
      jsTrim m.name = m.name ∧
        (m.deprecationStatus = DeprecationStatus.active → m.name ≠ "") := by
  unfold applyBlock
  by_cases hg : (jsTrim tc != "") = true
  · rw [if_pos hg]
    cases hp : parseXTable tc with
    | none => exact hacc
    | some pt =>
      exact foldl_rows_name_ok pt.headers ctx.category ctx.subcategory ctx.subSubcategory
        pt.rows (ctx.inlineHeader, acc) (parseXTable_rows_trimmed tc pt hp) hacc
  · rw [if_neg hg]; exact hacc

theorem walkLines_name_ok :
    ∀ (lines : List String) (mode : Option String) (ctx : Ctx) (acc : List Metric),
    (∀ m ∈ acc, jsTrim m.name = m.name ∧
      (m.deprecationStatus = DeprecationStatus.active → m.name ≠ "")) →
    ∀ m ∈ (walkLines lines mode ctx acc).2,
      jsTrim m.name = m.name ∧
        (m.deprecationStatus = DeprecationStatus.active → m.name ≠ "") := by
  intro lines
  induction lines with
  | nil =>
    intro mode ctx acc hacc
    cases mode with
    | none => exact hacc
    | some tc => exact applyBlock_name_ok _ _ _ hacc
  | cons line rest ih =>
    intro mode ctx acc hacc
    cases mode with
    | none =>
      by_cases c1 : (jsStartsWith "# " line && !jsStartsWith "## " line) = true
      · simp only [walkLines, if_pos c1]; exact ih none _ acc hacc
      · by_cases c2 : (jsStartsWith "## " line && !jsStartsWith "### " line) = true
        · simp only [walkLines, if_neg c1, if_pos c2]; exact ih none _ acc hacc
        · by_cases c3 : jsStartsWith "### " line = true
          · simp only [walkLines, if_neg c1, if_neg c2, if_pos c3]
            exact ih none _ acc hacc
          · by_cases c4 : containsSubStr "```xtable" line = true
            · simp only [walkLines, if_neg c1, if_neg c2, if_neg c3, if_pos c4]
              exact ih (some "") ctx acc hacc
            · simp only [walkLines, if_neg c1, if_neg c2, if_neg c3, if_neg c4]
              exact ih none ctx acc hacc
    | some tc =>
      by_cases c : containsSubStr "```" line = true
      · simp only [walkLines, if_pos c]
        exact ih none _ _ (applyBlock_name_ok _ _ _ hacc)
      · simp only [walkLines, if_neg c]
        exact ih (some _) ctx acc hacc

/-- Claim C5 (corrected): the claim asserts that every metric name is
non-empty after marker stripping.  A field cell consisting solely of the
deprecation marker strips to the empty name, and the pipeline emits the
metric anyway: this document produces exactly one metric and its name is
the empty string. -/
theorem claim5_counterexample :
    (processMarkdownContent
        "# C\n```xtable\nField | Type | Description\n---\n\x7b-deprecated\x7d | number | d\n```").map
      Metric.name = [""] := by decide

/-- Claim C5 as amended: every metric returned by `processMarkdownContent`
(and more generally every non-null result of `extractMetricFromRow` on a
row of trimmed cells, which is what `parseXTable` produces) carries no
leading or trailing whitespace in its name; the name is moreover non-empty
whenever the metric's status is active — non-emptiness can fail only on the
marker branches, as the counterexample shows. -/
theorem claim5_amended :
    (∀ (content : String) (m : Metric), m ∈ processMarkdownContent content →
      jsTrim m.name = m.name ∧
        (m.deprecationStatus = DeprecationStatus.active → m.name ≠ "")) ∧
    (∀ (row headers : List String) (cat sub : String) (m : Metric),
      (∀ cell ∈ row, jsTrim cell = cell) →
      extractMetricFromRow row headers cat sub = some m →
      jsTrim m.name = m.name ∧
        (m.deprecationStatus = DeprecationStatus.active → m.name ≠ "")) := by
  constructor
  · intro content m hm
    exact walkLines_name_ok _ _ _ _ (by intro m' hm'; exact absurd hm' (List.not_mem_nil m')) m hm
  · intro row headers cat sub m hrow h
    exact extract_some_name row headers cat sub m hrow h

/-- Witness for C5 as amended, at a concrete document and its single
metric. -/
theorem claim5_witness :
    jsTrim (Metric.name ⟨"a", "C", "General", "t", "d", "", DeprecationStatus.active⟩) =
        Metric.name ⟨"a", "C", "General", "t", "d", "", DeprecationStatus.active⟩ ∧
      (Metric.deprecationStatus ⟨"a", "C", "General", "t", "d", "",
          DeprecationStatus.active⟩ = DeprecationStatus.active →
        Metric.name ⟨"a", "C", "General", "t", "d", "", DeprecationStatus.active⟩ ≠ "") :=
  claim5_amended.1 "# C\n```xtable\nField | Type | Description\n---\na | t | d\n```"
    ⟨"a", "C", "General", "t", "d", "", DeprecationStatus.active⟩ (by decide)

/-- Claim C1 (corrected): on the claim's end-to-end document the code does
not return the two metrics the claim lists.  `parseXTable` strips the
leading `#` from the row `#Legacy Fields`, the stripped single-cell row is
then detected as an inline header, and the following metric's subcategory
becomes "Video Metrics - Legacy Fields" rather than "Video Metrics". -/
theorem claim1_counterexample :
    processMarkdownContent
        "# Engagement\n## Video Metrics\n```xtable\nField | Type | Description\n---\nvideo_views | number | Total views\n#Legacy Fields\ntotal_comments \x7b-deprecated\x7d | number | Total comments\n```" ≠
      [⟨"video_views", "Engagement", "Video Metrics", "number", "Total views", "",
        DeprecationStatus.active⟩,
       ⟨"total_comments", "Engagement", "Video Metrics", "number", "Total comments", "",
        DeprecationStatus.deprecated⟩] := by decide

/-- Claim C1 as amended: the document yields exactly two metrics; the first
is exactly as claimed, the `#Legacy Fields` row produces no metric (it
becomes the inline header "Legacy Fields" instead), and the second metric
is as claimed except that its subcategory is
"Video Metrics - Legacy Fields". -/
theorem claim1_amended :
    processMarkdownContent
        "# Engagement\n## Video Metrics\n```xtable\nField | Type | Description\n---\nvideo_views | number | Total views\n#Legacy Fields\ntotal_comments \x7b-deprecated\x7d | number | Total comments\n```" =
      [⟨"video_views", "Engagement", "Video Metrics", "number", "Total views", "",
        DeprecationStatus.active⟩,
       ⟨"total_comments", "Engagement", "Video Metrics - Legacy Fields", "number",
        "Total comments", "", DeprecationStatus.deprecated⟩] := by decide
